import Mathlib

/-!
# Verification of the Tetris game core (src/src/main.jsx)

A shallow embedding of the game-logic functions of the repository's single
game module, together with proofs of the specification's claims about them.

Conventions of the embedding:
* A board cell holds a `Nat`: `0` is empty, any nonzero value is an occupied
  cell (the JS code stores a color string; the only operation ever applied to
  a cell is the truthiness test `cell !== 0`-style, so colors are modelled as
  distinct nonzero naturals).
* JS array reads `a[i]` on in-range indices are modelled with `List.getD`;
  every read performed by the embedded functions is index-guarded exactly as
  in the source, so the `getD` default is never exercised on those paths.
* Row/column positions are `Int` (pieces may sit partly above the top of the
  board, i.e. at negative rows).
-/

/-- A board cell: `0` = empty, nonzero = occupied (color code). -/
abbrev Cell := Nat

/-- The board: a list of rows, each a list of cells (`TOTAL_ROWS` rows of
`COLS` cells in the game). -/
abbrev Board := List (List Cell)

/-- A shape matrix: a square matrix of `0`/`1` entries. -/
abbrev Shape := List (List Nat)

/-- A board position: the shape matrix's top-left anchor. -/
structure Pos where
  row : Int
  col : Int
deriving DecidableEq

/-- `const COLS = 10`. -/
def COLS : Nat := 10

/-- `const ROWS = 20`. -/
def ROWS : Nat := 20

/-- `const BUFFER_ROWS = 20`. -/
def BUFFER_ROWS : Nat := 20

/-- `const TOTAL_ROWS = ROWS + BUFFER_ROWS` (= 40). -/
def TOTAL_ROWS : Nat := ROWS + BUFFER_ROWS

/-- Read `board[r][c]`; used only behind the source's own bounds guards. -/
def cellAt (board : Board) (r c : Int) : Cell :=
  (board.getD r.toNat []).getD c.toNat 0

/-- `checkCollision(board, piece, position)` from src/src/main.jsx:
for each occupied cell of the shape, collision if the cell's column leaves
`[0, COLS)`, its row is `≥ TOTAL_ROWS`, or (when its row is `≥ 0`) the board
cell there is occupied. -/
def checkCollision (board : Board) (piece : Shape) (position : Pos) : Bool :=
  (List.range piece.length).any fun row =>
    (List.range ((piece.getD row []).length)).any fun col =>
      (piece.getD row []).getD col 0 != 0 &&
      (let newRow := position.row + (row : Int)
       let newCol := position.col + (col : Int)
       (decide (newCol < 0) || decide ((COLS : Int) ≤ newCol) ||
        decide ((TOTAL_ROWS : Int) ≤ newRow)) ||
       (decide (0 ≤ newRow) && (cellAt board newRow newCol != 0)))

/-- Characterization of `checkCollision` as an existential over the shape's
occupied cells (shared helper). -/
lemma checkCollision_eq_true_iff (board : Board) (piece : Shape) (position : Pos) :
    checkCollision board piece position = true ↔
      ∃ row col, row < piece.length ∧ col < (piece.getD row []).length ∧
        (piece.getD row []).getD col 0 ≠ 0 ∧
        (position.col + (col : Int) < 0 ∨ (COLS : Int) ≤ position.col + (col : Int) ∨
          (TOTAL_ROWS : Int) ≤ position.row + (row : Int) ∨
          (0 ≤ position.row + (row : Int) ∧
            cellAt board (position.row + (row : Int)) (position.col + (col : Int)) ≠ 0)) := by
  simp only [checkCollision, List.any_eq_true, List.mem_range, Bool.and_eq_true,
    Bool.or_eq_true, decide_eq_true_eq, bne_iff_ne, ne_eq]
  constructor
  · rintro ⟨row, hrow, col, hcol, hocc, hbad⟩
    exact ⟨row, col, hrow, hcol, hocc, by tauto⟩
  · rintro ⟨row, col, hrow, hcol, hocc, hbad⟩
    exact ⟨row, hrow, col, hcol, hocc, by tauto⟩

/-- C1: `checkCollision` returns true iff some occupied cell of the shape,
placed at the given position, leaves the horizontal bounds `[0, 10)`, lands at
row `40` or beyond, or overlaps an occupied board cell; a cell at a negative
row is never by itself a collision source (board overlap is only tested for
rows `≥ 0`). -/
theorem collision_iff (board : Board) (piece : Shape) (position : Pos) :
    checkCollision board piece position = true ↔
      ∃ row col, row < piece.length ∧ col < (piece.getD row []).length ∧
        (piece.getD row []).getD col 0 ≠ 0 ∧
        (position.col + (col : Int) < 0 ∨ (COLS : Int) ≤ position.col + (col : Int) ∨
          (TOTAL_ROWS : Int) ≤ position.row + (row : Int) ∨
          (0 ≤ position.row + (row : Int) ∧
            cellAt board (position.row + (row : Int)) (position.col + (col : Int)) ≠ 0)) :=
  checkCollision_eq_true_iff board piece position

/-- The seven tetromino kinds, in the declaration order of `TETROMINOES`
(`Object.keys` order: I, O, T, S, Z, J, L). -/
inductive PieceType
  | I | O | T | S | Z | J | L
deriving DecidableEq, Fintype

/-- Shape matrices of `TETROMINOES`. -/
def tetrominoShape : PieceType → Shape
  | .I => [[0,0,0,0], [1,1,1,1], [0,0,0,0], [0,0,0,0]]
  | .O => [[1,1], [1,1]]
  | .T => [[0,1,0], [1,1,1], [0,0,0]]
  | .S => [[0,1,1], [1,1,0], [0,0,0]]
  | .Z => [[1,1,0], [0,1,1], [0,0,0]]
  | .J => [[1,0,0], [1,1,1], [0,0,0]]
  | .L => [[0,0,1], [1,1,1], [0,0,0]]

/-- Color codes of `TETROMINOES` (the JS colors are distinct strings; all
that matters operationally is that they are nonzero cell values). -/
def tetrominoColor : PieceType → Cell
  | .I => 1
  | .O => 2
  | .T => 3
  | .S => 4
  | .Z => 5
  | .J => 6
  | .L => 7

/-- `rotateMatrix(matrix)`: rotate a square matrix 90° clockwise;
`rotated[j][n-1-i] = matrix[i][j]`, i.e. `rotated[r][c] = matrix[n-1-c][r]`. -/
def rotateMatrix (matrix : Shape) : Shape :=
  let n := matrix.length
  (List.range n).map fun r =>
    (List.range n).map fun c => (matrix.getD (n - 1 - c) []).getD r 0

/-- `WALL_KICKS.JLSTZ`: kick candidates `(colOffset, rowOffset)` per
transition `from -> to`; any other key falls back to `[[0,0]]`
(`kickTable[kickKey] || [[0,0]]`). -/
def kicksJLSTZ : Nat → Nat → List (Int × Int)
  | 0, 1 => [(0,0), (-1,0), (-1,1), (0,-2), (-1,-2)]
  | 1, 0 => [(0,0), (1,0), (1,-1), (0,2), (1,2)]
  | 1, 2 => [(0,0), (1,0), (1,-1), (0,2), (1,2)]
  | 2, 1 => [(0,0), (-1,0), (-1,1), (0,-2), (-1,-2)]
  | 2, 3 => [(0,0), (1,0), (1,1), (0,-2), (1,-2)]
  | 3, 2 => [(0,0), (-1,0), (-1,-1), (0,2), (-1,2)]
  | 3, 0 => [(0,0), (-1,0), (-1,-1), (0,2), (-1,2)]
  | 0, 3 => [(0,0), (1,0), (1,1), (0,-2), (1,-2)]
  | _, _ => [(0,0)]

/-- `WALL_KICKS.I`. -/
def kicksI : Nat → Nat → List (Int × Int)
  | 0, 1 => [(0,0), (-2,0), (1,0), (-2,-1), (1,2)]
  | 1, 0 => [(0,0), (2,0), (-1,0), (2,1), (-1,-2)]
  | 1, 2 => [(0,0), (-1,0), (2,0), (-1,2), (2,-1)]
  | 2, 1 => [(0,0), (1,0), (-2,0), (1,-2), (-2,1)]
  | 2, 3 => [(0,0), (2,0), (-1,0), (2,1), (-1,-2)]
  | 3, 2 => [(0,0), (-2,0), (1,0), (-2,-1), (1,2)]
  | 3, 0 => [(0,0), (1,0), (-2,0), (1,-2), (-2,1)]
  | 0, 3 => [(0,0), (-1,0), (2,0), (-1,2), (2,-1)]
  | _, _ => [(0,0)]

/-- `currentPiece.type === 'I' ? WALL_KICKS.I : WALL_KICKS.JLSTZ`. -/
def kickTableFor (ty : PieceType) : Nat → Nat → List (Int × Int) :=
  if ty = .I then kicksI else kicksJLSTZ

/-- The active piece's rotation-relevant state: current shape matrix,
position, and rotation state in `{0,1,2,3}`. -/
structure PieceState where
  shape : Shape
  pos : Pos
  rotation : Nat
deriving DecidableEq

/-- The target rotation state of `rotatePiece`:
`clockwise ? (rotation + 1) % 4 : (rotation + 3) % 4`. -/
def newRotationOf (rotation : Nat) (clockwise : Bool) : Nat :=
  if clockwise then (rotation + 1) % 4 else (rotation + 3) % 4

/-- The number of clockwise `rotateMatrix` applications `rotatePiece`
performs: `clockwise ? (newRotation - rotation + 4) % 4
: (rotation - newRotation + 4) % 4` (JS signed arithmetic, hence `Int`). -/
def rotationsCount (rotation : Nat) (clockwise : Bool) : Nat :=
  let newRotation := newRotationOf rotation clockwise
  (if clockwise then ((newRotation : Int) - (rotation : Int) + 4) % 4
   else ((rotation : Int) - (newRotation : Int) + 4) % 4).toNat

/-- The candidate shape computed by `rotatePiece` before kick testing. -/
def attemptedShape (st : PieceState) (clockwise : Bool) : Shape :=
  rotateMatrix^[rotationsCount st.rotation clockwise] st.shape

/-- The kick-adjusted test position:
`{ row: position.row - kickY, col: position.col + kickX }`. -/
def kickedPos (pos : Pos) (k : Int × Int) : Pos :=
  ⟨pos.row - k.2, pos.col + k.1⟩

/-- `rotatePiece(clockwise)` from src/src/main.jsx, as a function from the
piece's rotation state to its post-attempt state: the O piece is a no-op;
otherwise the rotated shape is tried at each kick candidate in order and the
first non-colliding candidate is accepted; if none succeeds the state is
returned unchanged. -/
def rotatePiece (board : Board) (ty : PieceType) (st : PieceState)
    (clockwise : Bool) : PieceState :=
  if ty = .O then st
  else
    let newRotation := newRotationOf st.rotation clockwise
    let rotatedShape := attemptedShape st clockwise
    let kicks := kickTableFor ty st.rotation newRotation
    match kicks.find? (fun k => !checkCollision board rotatedShape (kickedPos st.pos k)) with
    | some k => ⟨rotatedShape, kickedPos st.pos k, newRotation⟩
    | none => st

/-- The empty board (`createEmptyBoard`). -/
def createEmptyBoard : Board := List.replicate TOTAL_ROWS (List.replicate COLS 0)

/-- A fully occupied board (used to exhibit rotation attempts whose kick
candidates all collide). -/
def fullBoard : Board := List.replicate TOTAL_ROWS (List.replicate COLS 1)

/-- C2: rotating a T piece clockwise and then counter-clockwise on an empty
board (the identity kick succeeds both times: position and rotation state are
restored) does NOT restore the shape matrix — it leaves the shape rotated
180°, because the counter-clockwise branch computes
`(rotation - newRotation + 4) % 4 = 1` and therefore applies one further
clockwise `rotateMatrix` instead of three. -/
theorem rotate_cw_then_ccw_bug :
    (rotatePiece createEmptyBoard .T
        (rotatePiece createEmptyBoard .T ⟨tetrominoShape .T, ⟨19, 3⟩, 0⟩ true) false).pos
        = (⟨19, 3⟩ : Pos) ∧
    (rotatePiece createEmptyBoard .T
        (rotatePiece createEmptyBoard .T ⟨tetrominoShape .T, ⟨19, 3⟩, 0⟩ true) false).rotation = 0 ∧
    (rotatePiece createEmptyBoard .T
        (rotatePiece createEmptyBoard .T ⟨tetrominoShape .T, ⟨19, 3⟩, 0⟩ true) false).shape
        ≠ tetrominoShape .T ∧
    (rotatePiece createEmptyBoard .T
        (rotatePiece createEmptyBoard .T ⟨tetrominoShape .T, ⟨19, 3⟩, 0⟩ true) false).shape
        = rotateMatrix (rotateMatrix (tetrominoShape .T)) := by
  decide

/-- C3: if every kick candidate for the attempted rotation transition yields a
colliding placement, the rotation attempt changes nothing: shape, position and
rotation state are exactly as before. -/
theorem rotation_rejected_unchanged (board : Board) (ty : PieceType) (st : PieceState)
    (clockwise : Bool)
    (h : ∀ k ∈ kickTableFor ty st.rotation (newRotationOf st.rotation clockwise),
      checkCollision board (attemptedShape st clockwise) (kickedPos st.pos k) = true) :
    rotatePiece board ty st clockwise = st := by
  unfold rotatePiece
  split
  · rfl
  · have hnone : (kickTableFor ty st.rotation (newRotationOf st.rotation clockwise)).find?
        (fun k => !checkCollision board (attemptedShape st clockwise) (kickedPos st.pos k))
        = none := by
      apply List.find?_eq_none.mpr
      intro k hk
      simp [h k hk]
    simp only [hnone]

/-- Witness for C3: on a fully occupied board, every kick candidate of a
clockwise T rotation collides, and the attempt leaves the piece unchanged. -/
theorem rotation_rejected_unchanged_witness :
    (∀ k ∈ kickTableFor .T 0 (newRotationOf 0 true),
        checkCollision fullBoard (attemptedShape ⟨tetrominoShape .T, ⟨19, 3⟩, 0⟩ true)
          (kickedPos ⟨19, 3⟩ k) = true) ∧
      rotatePiece fullBoard .T ⟨tetrominoShape .T, ⟨19, 3⟩, 0⟩ true
        = ⟨tetrominoShape .T, ⟨19, 3⟩, 0⟩ :=
  ⟨by decide, rotation_rejected_unchanged fullBoard .T ⟨tetrominoShape .T, ⟨19, 3⟩, 0⟩ true
    (by decide)⟩

/-- An empty row: `Array(COLS).fill(0)`. -/
def emptyRow : List Cell := List.replicate COLS 0

/-- `row.every(cell => cell !== 0)`: a row is full when no cell is empty. -/
def isFull (r : List Cell) : Bool := r.all (fun c => c != 0)

/-- `b[r][c] = v` on a row list. A JS write at a negative index creates a
non-element property invisible to every element read, and a write past the
row's end is likewise never read back by the embedded functions (all cell
reads address columns `< COLS`), so both are modelled as no-ops — exactly
`List.set`'s out-of-range behavior, plus an explicit guard for `c < 0`. -/
def setCell (b : Board) (r c : Int) (v : Cell) : Board :=
  if 0 ≤ c then b.set r.toNat ((b.getD r.toNat []).set c.toNat v) else b

/-- The piece-writing loop shared by `lockPiece`, `hardDrop` and
`evaluatePosition`: write `v` into every occupied shape cell whose board row
is within `[0, TOTAL_ROWS)` (only the row is guarded, as in the source). -/
def placePiece (board : Board) (piece : Shape) (pos : Pos) (v : Cell) : Board :=
  (List.range piece.length).foldl (fun b row =>
    (List.range ((piece.getD row []).length)).foldl (fun b2 col =>
      if (piece.getD row []).getD col 0 ≠ 0 then
        (if 0 ≤ pos.row + (row : Int) ∧ pos.row + (row : Int) < (TOTAL_ROWS : Int) then
          setCell b2 (pos.row + (row : Int)) (pos.col + (col : Int)) v
        else b2)
      else b2) b) board

/-- The ascending indices of the full rows (`completedLines` scan). -/
def fullIdxs : Board → List Nat
  | [] => []
  | r :: rs => if isFull r then 0 :: (fullIdxs rs).map (· + 1) else (fullIdxs rs).map (· + 1)

/-- One iteration of the clearing loop:
`newBoard.splice(lineRow, 1); newBoard.unshift(Array(COLS).fill(0))`. -/
def clearStep (b : Board) (i : Nat) : Board := emptyRow :: b.eraseIdx i

/-- `completedLines.forEach(...)`: splice out each recorded full row in
ascending order, unshifting an empty row each time. -/
def clearLines (b : Board) : Board := (fullIdxs b).foldl clearStep b

/-- Erasing at an index past a prefix erases inside the suffix. -/
lemma eraseIdx_append_right (p l : List (List Cell)) (k : Nat) :
    (p ++ l).eraseIdx (p.length + k) = p ++ l.eraseIdx k := by
  induction p with
  | nil => simp
  | cons x xs ih =>
    simp only [List.cons_append, List.length_cons]
    have : xs.length + 1 + k = (xs.length + k) + 1 := by omega
    rw [this, List.eraseIdx_cons_succ, ih]

/-- Composing two index shifts. -/
lemma map_shift (L : List Nat) (n : Nat) :
    (L.map (· + 1)).map (· + n) = L.map (· + (n + 1)) := by
  induction L with
  | nil => rfl
  | cons a t ih => simp only [List.map_cons, ih]; congr 1; omega

/-- Shifting by zero. -/
lemma map_shift_zero (L : List Nat) : L.map (· + 0) = L := by
  induction L with
  | nil => rfl
  | cons a t ih => simp [ih]

/-- The sequential splice/unshift loop, generalized over an already-processed
prefix `p`: it deletes exactly the recorded rows of `b` and stacks one empty
row on top per deletion. -/
lemma clear_fold_general (b : Board) : ∀ (p : Board),
    ((fullIdxs b).map (· + p.length)).foldl clearStep (p ++ b)
      = List.replicate (fullIdxs b).length emptyRow ++ p
          ++ b.filter (fun row => !isFull row) := by
  induction b with
  | nil => intro p; simp [fullIdxs]
  | cons r rs ih =>
    intro p
    by_cases hf : isFull r
    · have h1 : fullIdxs (r :: rs) = 0 :: (fullIdxs rs).map (· + 1) := by
        simp [fullIdxs, hf]
      have h2 : ((0 :: (fullIdxs rs).map (· + 1)).map (· + p.length))
          = p.length :: (fullIdxs rs).map (· + (p.length + 1)) := by
        rw [List.map_cons, map_shift]
        simp
      rw [h1, h2, List.foldl_cons]
      have h3 : clearStep (p ++ r :: rs) p.length = (emptyRow :: p) ++ rs := by
        have h4 := eraseIdx_append_right p (r :: rs) 0
        simp only [Nat.add_zero] at h4
        simp [clearStep, h4]
      have h5 : p.length + 1 = (emptyRow :: p).length := by simp
      rw [h3, h5, ih (emptyRow :: p)]
      simp [List.filter_cons, hf, List.replicate_succ', List.append_assoc]
    · have hf' : isFull r = false := by simpa using hf
      have h1 : fullIdxs (r :: rs) = (fullIdxs rs).map (· + 1) := by
        simp [fullIdxs, hf']
      have h2 : (((fullIdxs rs).map (· + 1)).map (· + p.length))
          = (fullIdxs rs).map (· + (p ++ [r]).length) := by
        rw [map_shift]
        simp
      have h3 : p ++ r :: rs = (p ++ [r]) ++ rs := by simp
      rw [h1, h2, h3, ih (p ++ [r])]
      simp [List.filter_cons, hf', List.append_assoc]

/-- Each full row of `b` contributes exactly one recorded index. -/
lemma fullIdxs_length (b : Board) :
    (fullIdxs b).length = (b.filter (fun row => isFull row)).length := by
  induction b with
  | nil => rfl
  | cons r rs ih =>
    by_cases hf : isFull r
    · simp [fullIdxs, hf, List.filter_cons, ih]
    · have hf' : isFull r = false := by simpa using hf
      simp [fullIdxs, hf', List.filter_cons, ih]

/-- The clearing loop equals the one-shot description: drop every full row,
keep the rest in order, stack as many empty rows on top. -/
lemma clearLines_eq (b : Board) :
    clearLines b = List.replicate ((b.filter (fun row => isFull row)).length) emptyRow
      ++ b.filter (fun row => !isFull row) := by
  have h := clear_fold_general b []
  simp only [List.length_nil, map_shift_zero, List.nil_append, List.append_nil] at h
  rw [clearLines, h, fullIdxs_length]

/-- C5: after a piece is written to the board, clearing the `k` simultaneously
full rows one-at-a-time with splice/unshift yields exactly the board obtained
by removing all `k` full rows at once and inserting `k` empty rows at the top:
the non-full rows keep their relative order and the row count is unchanged. -/
theorem clear_lines_simultaneous (board : Board) (piece : Shape) (pos : Pos) (color : Cell) :
    clearLines (placePiece board piece pos color)
        = List.replicate (((placePiece board piece pos color).filter
            (fun row => isFull row)).length) emptyRow
          ++ (placePiece board piece pos color).filter (fun row => !isFull row) ∧
      (clearLines (placePiece board piece pos color)).length
        = (placePiece board piece pos color).length := by
  refine ⟨clearLines_eq _, ?_⟩
  rw [clearLines_eq]
  simp only [List.length_append, List.length_replicate]
  exact (List.length_eq_length_filter_add (fun row => isFull row)).symm

/-- `lineScores = [0, SINGLE, DOUBLE, TRIPLE, TETRIS]`. -/
def lineScores : List Nat := [0, 100, 300, 500, 800]

/-- Outcome of `lockPiece`: the cleared board, the score delta added at the
lock event, and the number of lines cleared. -/
structure LockResult where
  board : Board
  points : Nat
  linesCleared : Nat
deriving DecidableEq

/-- `lockPiece` from src/src/main.jsx: write the piece, record the full rows,
splice/unshift them away, and add `lineScores[completedLines.length] * level`
points (when no line is full the source adds nothing, which coincides with
`lineScores[0] * level = 0`). -/
def lockPiece (board : Board) (shape : Shape) (pos : Pos) (color : Cell)
    (level : Nat) : LockResult :=
  let newBoard := placePiece board shape pos color
  let completed := fullIdxs newBoard
  { board := completed.foldl clearStep newBoard
    points := lineScores.getD completed.length 0 * level
    linesCleared := completed.length }

/-- A board whose bottom four rows are full except for the last column. -/
def tetrisBoard : Board :=
  List.replicate 36 (List.replicate COLS 0)
    ++ List.replicate 4 (List.replicate 9 1 ++ [0])

/-- Counterexample to C6 as stated: locking a vertical I piece into
`tetrisBoard` at level 3 clears 4 lines but adds 2400 points
(`800 × 3`), not the claimed 3200. -/
theorem tetris_level3_scores_2400_not_3200 :
    (lockPiece tetrisBoard (rotateMatrix (tetrominoShape .I)) ⟨36, 7⟩
        (tetrominoColor .I) 3).linesCleared = 4 ∧
      (lockPiece tetrisBoard (rotateMatrix (tetrominoShape .I)) ⟨36, 7⟩
        (tetrominoColor .I) 3).points = 2400 ∧
      (lockPiece tetrisBoard (rotateMatrix (tetrominoShape .I)) ⟨36, 7⟩
        (tetrominoColor .I) 3).points ≠ 3200 := by
  decide

/-- C6 (amended): locking a piece that simultaneously clears lines adds base
points (1 line: 100, 2: 300, 3: 500, 4: 800) multiplied by the current level;
in particular a single line clear at level 1 adds `100 × 1 = 100` points and a
4-line clear at level 3 adds `800 × 3 = 2400` points. -/
theorem lock_scoring_amended (board : Board) (shape : Shape) (pos : Pos) (color : Cell)
    (level : Nat) :
    ((lockPiece board shape pos color level).linesCleared = 1 →
        (lockPiece board shape pos color level).points = 100 * level) ∧
      ((lockPiece board shape pos color level).linesCleared = 2 →
        (lockPiece board shape pos color level).points = 300 * level) ∧
      ((lockPiece board shape pos color level).linesCleared = 3 →
        (lockPiece board shape pos color level).points = 500 * level) ∧
      ((lockPiece board shape pos color level).linesCleared = 4 →
        (lockPiece board shape pos color level).points = 800 * level) := by
  have hlc : (lockPiece board shape pos color level).linesCleared
      = (fullIdxs (placePiece board shape pos color)).length := rfl
  have hpt : (lockPiece board shape pos color level).points
      = lineScores.getD (fullIdxs (placePiece board shape pos color)).length 0 * level := rfl
  refine ⟨fun h => ?_, fun h => ?_, fun h => ?_, fun h => ?_⟩ <;>
    rw [hlc] at h <;> rw [hpt, h] <;> rfl

/-- Witness for C6 (amended): the concrete 4-line clear at level 3. -/
theorem lock_scoring_amended_witness :
    (lockPiece tetrisBoard (rotateMatrix (tetrominoShape .I)) ⟨36, 7⟩
        (tetrominoColor .I) 3).linesCleared = 4 ∧
      (lockPiece tetrisBoard (rotateMatrix (tetrominoShape .I)) ⟨36, 7⟩
        (tetrominoColor .I) 3).points = 800 * 3 :=
  ⟨by decide,
    (lock_scoring_amended tetrisBoard (rotateMatrix (tetrominoShape .I)) ⟨36, 7⟩
      (tetrominoColor .I) 3).2.2.2 (by decide)⟩

/-- `pieceType === 'I' ? BUFFER_ROWS - 2 : BUFFER_ROWS - 1`. -/
def startRowOf (t : PieceType) : Int :=
  if t = .I then (BUFFER_ROWS : Int) - 2 else (BUFFER_ROWS : Int) - 1

/-- `pieceType === 'O' ? 4 : 3`. -/
def startColOf (t : PieceType) : Int := if t = .O then 4 else 3

/-- The state written by `spawnNewPiece`: the board is carried through
untouched; `gameOver` is the result of the spawn-time collision check. -/
structure SpawnState where
  board : Board
  piece : Shape
  pos : Pos
  rotation : Nat
  canHold : Bool
  lockdownTimer : Nat
  lockdownMoves : Nat
  gameOver : Bool

/-- `spawnNewPiece(pieceType)` from src/src/main.jsx. -/
def spawnNewPiece (board : Board) (t : PieceType) : SpawnState :=
  { board := board
    piece := tetrominoShape t
    pos := ⟨startRowOf t, startColOf t⟩
    rotation := 0
    canHold := true
    lockdownTimer := 0
    lockdownMoves := 0
    gameOver := checkCollision board (tetrominoShape t) ⟨startRowOf t, startColOf t⟩ }

/-- C8: if a spawned piece's initial cells (rotation 0, start column 4 for O
else 3, start row at the top of the buffer, one higher for I) collide with the
board, the controller transitions directly to game over and the board is not
mutated by the spawn. -/
theorem spawn_collision_game_over (board : Board) (t : PieceType)
    (h : checkCollision board (tetrominoShape t) ⟨startRowOf t, startColOf t⟩ = true) :
    (spawnNewPiece board t).gameOver = true ∧ (spawnNewPiece board t).board = board :=
  ⟨h, rfl⟩

/-- Witness for C8: spawning a T over a fully occupied board. -/
theorem spawn_collision_game_over_witness :
    checkCollision fullBoard (tetrominoShape .T) ⟨startRowOf .T, startColOf .T⟩ = true ∧
      ((spawnNewPiece fullBoard .T).gameOver = true
        ∧ (spawnNewPiece fullBoard .T).board = fullBoard) :=
  ⟨by decide, spawn_collision_game_over fullBoard .T (by decide)⟩

/-- C10: under the no-collision precondition, every occupied shape cell —
exactly the cells written by the locking loops of `lockPiece`/`hardDrop`,
whose column `pos.col + col` is not guarded in the source — has its column
inside `[0, COLS)` (for the hard-drop write the row changes to the ghost row
but the column is the same, so this bounds that write too). -/
theorem lock_write_cols_in_bounds (board : Board) (piece : Shape) (pos : Pos)
    (h : checkCollision board piece pos = false) :
    ∀ row col, row < piece.length → col < (piece.getD row []).length →
      (piece.getD row []).getD col 0 ≠ 0 →
      0 ≤ pos.col + (col : Int) ∧ pos.col + (col : Int) < (COLS : Int) := by
  intro row col hrow hcol hocc
  by_contra hcontra
  have htrue : checkCollision board piece pos = true := by
    rw [checkCollision_eq_true_iff]
    refine ⟨row, col, hrow, hcol, hocc, ?_⟩
    rcases not_and_or.mp hcontra with h1 | h1
    · exact Or.inl (by omega)
    · exact Or.inr (Or.inl (by omega))
  rw [h] at htrue
  exact Bool.false_ne_true htrue

/-- Witness for C10: the unobstructed spawn position of T on the empty board;
the occupied cell at shape row 1, column 0 lands in column 3. -/
theorem lock_write_cols_in_bounds_witness :
    checkCollision createEmptyBoard (tetrominoShape .T) ⟨19, 3⟩ = false ∧
      (0 ≤ (Pos.mk 19 3).col + ((0 : Nat) : Int)
        ∧ (Pos.mk 19 3).col + ((0 : Nat) : Int) < (COLS : Int)) :=
  ⟨by decide,
    lock_write_cols_in_bounds createEmptyBoard (tetrominoShape .T) ⟨19, 3⟩ (by decide)
      1 0 (by decide) (by decide) (by decide)⟩

/-- The three lockdown modes (`lockdownMode` state). -/
inductive LockdownMode
  | classic | extended | infinite
deriving DecidableEq

/-- Lockdown-relevant events while the active piece is on-ground: one
`gameLoop` frame (`tick`), or one successful lateral/rotational move
(`move`). -/
inductive LockEvent
  | tick | move
deriving DecidableEq

/-- The lockdown accounting state: `lockdownTimer.current`,
`lockdownMoves.current`, and whether the piece has locked; once locked the
piece is fixed, so the state is absorbing. -/
structure LockState where
  timer : Nat
  moves : Nat
  locked : Bool
deriving DecidableEq

/-- The state set at spawn: both counters zero. -/
def initLock : LockState := ⟨0, 0, false⟩

/-- One on-ground `gameLoop` frame (src/src/main.jsx lines 728-758): the
timer is incremented, then `shouldLock` is evaluated per mode
(classic: `timer >= 15`; extended: `timer >= 30 || moves >= 15`;
infinite: `timer >= 90`). -/
def tickLock (mode : LockdownMode) (s : LockState) : LockState :=
  if s.locked then s
  else
    let t := s.timer + 1
    let shouldLock : Bool :=
      match mode with
      | .classic => decide (15 ≤ t)
      | .extended => decide (30 ≤ t) || decide (15 ≤ s.moves)
      | .infinite => decide (90 ≤ t)
    ⟨t, s.moves, shouldLock⟩

/-- A successful on-ground lateral/rotational move (`movePiece` lines
352-377, `rotatePiece` lines 424-438): the move counter is incremented and
the timer is reset per mode — never in classic, below the 15-move cap in
extended, always in infinite. (In classic mode `rotatePiece` skips even the
counter increment; the counter is unobservable in classic, where `tickLock`
never reads it.) -/
def moveLock (mode : LockdownMode) (s : LockState) : LockState :=
  if s.locked then s
  else
    match mode with
    | .classic => ⟨s.timer, s.moves + 1, false⟩
    | .extended =>
        if s.moves + 1 < 15 then ⟨0, s.moves + 1, false⟩ else ⟨s.timer, s.moves + 1, false⟩
    | .infinite => ⟨0, s.moves + 1, false⟩

/-- Dispatch one lockdown event. -/
def lockStep (mode : LockdownMode) (s : LockState) : LockEvent → LockState
  | .tick => tickLock mode s
  | .move => moveLock mode s

/-- Run a sequence of on-ground events from a state. -/
def runLock (mode : LockdownMode) (s : LockState) (es : List LockEvent) : LockState :=
  es.foldl (lockStep mode) s

lemma runLock_cons (m : LockdownMode) (s : LockState) (e : LockEvent) (es : List LockEvent) :
    runLock m s (e :: es) = runLock m (lockStep m s e) es := rfl

/-- Number of `tick` events in a sequence. -/
def tickCount (es : List LockEvent) : Nat := es.countP (fun e => e == .tick)

lemma tickCount_tick_cons (es : List LockEvent) :
    tickCount (.tick :: es) = tickCount es + 1 := by
  simp [tickCount]

lemma tickCount_move_cons (es : List LockEvent) :
    tickCount (.move :: es) = tickCount es := by
  simp [tickCount]

/-- In classic mode with no further moves, the state after `n` on-ground
frames. -/
lemma classic_ticks (n : Nat) :
    (tickLock .classic)^[n] initLock
      = if n < 15 then ⟨n, 0, false⟩ else ⟨15, 0, true⟩ := by
  induction n with
  | zero => simp [initLock]
  | succ n ih =>
    rw [Function.iterate_succ_apply', ih]
    by_cases h : n < 15
    · rw [if_pos h]
      by_cases h2 : n + 1 < 15
      · rw [if_pos h2]
        simp [tickLock, show ¬(15 ≤ n + 1) from by omega]
      · rw [if_neg (by omega)]
        have h3 : n + 1 = 15 := by omega
        simp [tickLock, show 15 ≤ n + 1 from by omega, h3]
    · rw [if_neg h, if_neg (by omega)]
      simp [tickLock]

/-- In infinite mode, a run that ends locked either started locked or saw at
least `90 - timer` ticks (stated with the starting timer as slack). -/
lemma infinite_locked_ticks : ∀ (es : List LockEvent) (s : LockState),
    (runLock .infinite s es).locked = true →
      s.locked = true ∨ 90 ≤ s.timer + tickCount es := by
  intro es
  induction es with
  | nil => intro s h; exact Or.inl h
  | cons e es ih =>
    intro s h
    rw [runLock_cons] at h
    by_cases hs : s.locked = true
    · exact Or.inl hs
    · right
      have hs' : s.locked = false := by simpa using hs
      cases e with
      | tick =>
        rw [tickCount_tick_cons]
        rcases ih _ h with hl | hge
        · have h90 : 90 ≤ s.timer + 1 := by
            simpa [lockStep, tickLock, hs'] using hl
          omega
        · have : 90 ≤ s.timer + 1 + tickCount es := by
            simpa [lockStep, tickLock, hs'] using hge
          omega
      | move =>
        rw [tickCount_move_cons]
        rcases ih _ h with hl | hge
        · simp [lockStep, moveLock, hs'] at hl
        · have : 90 ≤ 0 + tickCount es := by
            simpa [lockStep, moveLock, hs'] using hge
          omega

/-- C4: (i) in classic mode, a piece on-ground with no further moves is
locked after `n` frames exactly when `n ≥ 15`; (ii) in classic mode no
lateral/rotational move ever resets the lockdown timer; (iii) in infinite
mode, any on-ground event sequence that locks the piece contains at least 90
ticks, however many moves (and timer resets) it contains. -/
theorem lockdown_classic_and_infinite :
    (∀ n : Nat, ((tickLock .classic)^[n] initLock).locked = decide (15 ≤ n)) ∧
      (∀ s : LockState, (moveLock .classic s).timer = s.timer) ∧
      (∀ es : List LockEvent, (runLock .infinite initLock es).locked = true →
        90 ≤ tickCount es) := by
  refine ⟨?_, ?_, ?_⟩
  · intro n
    rw [classic_ticks]
    by_cases h : n < 15
    · rw [if_pos h]
      symm
      exact decide_eq_false (by omega)
    · rw [if_neg h]
      symm
      exact decide_eq_true (by omega)
  · intro s
    unfold moveLock
    split
    · rfl
    · rfl
  · intro es h
    rcases infinite_locked_ticks es initLock h with hl | hge
    · simp [initLock] at hl
    · simpa [initLock] using hge

set_option maxRecDepth 100000 in
/-- Witness for C4: ninety consecutive on-ground frames in infinite mode lock
the piece, and the sequence indeed contains (at least) 90 ticks. -/
theorem lockdown_classic_and_infinite_witness :
    (runLock .infinite initLock (List.replicate 90 .tick)).locked = true ∧
      90 ≤ tickCount (List.replicate 90 .tick) :=
  ⟨by decide, lockdown_classic_and_infinite.2.2 (List.replicate 90 .tick) (by decide)⟩

/-- The JS destructuring swap `[pieces[i], pieces[j]] = [pieces[j], pieces[i]]`
(both reads happen before both writes); `d` is the `getD` default, never
exercised for in-range indices. -/
def swapList (l : List α) (i j : Nat) (d : α) : List α :=
  (l.set i (l.getD j d)).set j (l.getD i d)

/-- Replacing an element while keeping it at the front is a permutation. -/
lemma getD_cons_set_perm : ∀ (l : List α) (j : Nat) (x d : α), j < l.length →
    List.Perm (l.getD j d :: l.set j x) (x :: l) := by
  intro l
  induction l with
  | nil => intro j x d h; simp at h
  | cons y t ih =>
    intro j x d h
    cases j with
    | zero =>
      simp only [List.getD_cons_zero, List.set_cons_zero]
      exact List.Perm.swap x y t
    | succ j =>
      simp only [List.getD_cons_succ, List.set_cons_succ]
      have s1 : List.Perm (t.getD j d :: y :: t.set j x) (y :: t.getD j d :: t.set j x) :=
        List.Perm.swap y (t.getD j d) (t.set j x)
      have s2 : List.Perm (y :: t.getD j d :: t.set j x) (y :: x :: t) :=
        (ih j x d (by simpa using h)).cons y
      have s3 : List.Perm (y :: x :: t) (x :: y :: t) := List.Perm.swap x y t
      exact (s1.trans s2).trans s3

/-- An in-range index swap permutes the list. -/
lemma swapList_perm : ∀ (l : List α) (i j : Nat) (d : α),
    i < l.length → j < l.length → List.Perm (swapList l i j d) l := by
  intro l
  induction l with
  | nil => intro i j d hi _; simp at hi
  | cons y t ih =>
    intro i j d hi hj
    cases i with
    | zero =>
      cases j with
      | zero =>
        simp only [swapList, List.getD_cons_zero, List.set_cons_zero]
        exact List.Perm.refl _
      | succ j =>
        have h1 : swapList (y :: t) 0 (j+1) d = t.getD j d :: t.set j y := by
          simp [swapList]
        rw [h1]
        exact getD_cons_set_perm t j y d (by simpa using hj)
    | succ i =>
      cases j with
      | zero =>
        have h1 : swapList (y :: t) (i+1) 0 d = t.getD i d :: t.set i y := by
          simp [swapList]
        rw [h1]
        exact getD_cons_set_perm t i y d (by simpa using hi)
      | succ j =>
        have h1 : swapList (y :: t) (i+1) (j+1) d = y :: swapList t i j d := by
          simp [swapList]
        rw [h1]
        exact (ih i j d (by simpa using hi) (by simpa using hj)).cons y

/-- The Fisher–Yates loop of `generateBag`: for `i` from `n` down to `1`,
swap index `i` with index `r i`, where `r i` models
`Math.floor(Math.random() * (i + 1))` (hence `r i ≤ i`). -/
def fisherYates (r : Nat → Nat) (d : α) : Nat → List α → List α
  | 0, l => l
  | i+1, l => fisherYates r d i (swapList l (i+1) (r (i+1)) d)

/-- `Object.keys(TETROMINOES)`: the seven kinds in declaration order. -/
def pieceOrder : List PieceType := [.I, .O, .T, .S, .Z, .J, .L]

/-- `generateBag()` from src/src/main.jsx, with the stream of random index
draws abstracted as `r`. -/
def generateBag (r : Nat → Nat) : List PieceType :=
  fisherYates r .I (pieceOrder.length - 1) pieceOrder

lemma length_swapList (l : List α) (i j : Nat) (d : α) :
    (swapList l i j d).length = l.length := by
  simp [swapList]

/-- The Fisher–Yates loop permutes its input whenever every random draw is in
range. -/
lemma fisherYates_perm (r : Nat → Nat) (d : α) :
    ∀ (n : Nat) (l : List α), (∀ i, r i ≤ i) → n < l.length →
      List.Perm (fisherYates r d n l) l := by
  intro n
  induction n with
  | zero =>
    intro l _ _
    exact List.Perm.refl l
  | succ n ih =>
    intro l hr hn
    have hswap : List.Perm (swapList l (n+1) (r (n+1)) d) l :=
      swapList_perm l (n+1) (r (n+1)) d hn (Nat.lt_of_le_of_lt (hr (n+1)) hn)
    have hlen : n < (swapList l (n+1) (r (n+1)) d).length := by
      rw [length_swapList]; omega
    exact (ih (swapList l (n+1) (r (n+1)) d) hr hlen).trans hswap

/-- C7: for every outcome of the random draws, `generateBag` produces a
permutation of the 7 piece kinds, so 7 consecutive draws starting at a bag
boundary contain every kind exactly once, and 14 consecutive draws starting
at a bag boundary (two bags) contain every kind exactly twice. -/
theorem bag_is_permutation (r r' : Nat → Nat) (hr : ∀ i, r i ≤ i) (hr' : ∀ i, r' i ≤ i) :
    List.Perm (generateBag r) pieceOrder ∧
      (∀ t : PieceType, (generateBag r).count t = 1) ∧
      (∀ t : PieceType, ((generateBag r) ++ (generateBag r')).count t = 2) := by
  have hperm : List.Perm (generateBag r) pieceOrder :=
    fisherYates_perm r PieceType.I (pieceOrder.length - 1) pieceOrder hr (by decide)
  have hperm' : List.Perm (generateBag r') pieceOrder :=
    fisherYates_perm r' PieceType.I (pieceOrder.length - 1) pieceOrder hr' (by decide)
  have hcount : ∀ t : PieceType, pieceOrder.count t = 1 := by decide
  refine ⟨hperm, fun t => ?_, fun t => ?_⟩
  · rw [hperm.count_eq, hcount t]
  · rw [List.count_append, hperm.count_eq, hperm'.count_eq, hcount t]

/-- Witness for C7: the draw stream that always picks index 0. -/
theorem bag_is_permutation_witness :
    List.Perm (generateBag (fun _ => 0)) pieceOrder ∧
      (∀ t : PieceType, (generateBag (fun _ => 0)).count t = 1) ∧
      (∀ t : PieceType,
        ((generateBag (fun _ => 0)) ++ (generateBag (fun _ => 0))).count t = 2) :=
  bag_is_permutation (fun _ => 0) (fun _ => 0) (fun i => Nat.zero_le i) (fun i => Nat.zero_le i)

/-- The drop loop `while (!checkCollision(board, piece, {row: row+1, col}))
row++` with explicit fuel. In the source the loop terminates because every
nonempty shape collides once its cells pass row `TOTAL_ROWS`; fuel `256`
covers every start row the game can reach. -/
def dropRowAux (board : Board) (piece : Shape) (col : Int) : Nat → Int → Int
  | 0, row => row
  | fuel+1, row =>
    if checkCollision board piece ⟨row + 1, col⟩ then row
    else dropRowAux board piece col fuel (row + 1)

/-- `getGhostPosition(board, piece, position)`. -/
def getGhostPosition (board : Board) (piece : Shape) (position : Pos) : Int :=
  dropRowAux board piece position.col 256 position.row

/-- The per-column scan of `evaluatePosition`: returns
`(height, foundBlock, holesInColumn)` after walking rows `0..TOTAL_ROWS-1`
(height is set at the first occupied cell; empty cells after it are holes). -/
def colStats (b : Board) (col : Nat) : Nat × Bool × Nat :=
  (List.range TOTAL_ROWS).foldl (fun acc row =>
    if (b.getD row []).getD col 0 ≠ 0 then
      (if !acc.2.1 then (TOTAL_ROWS - row, true, acc.2.2) else acc)
    else
      (if acc.2.1 then (acc.1, acc.2.1, acc.2.2 + 1) else acc)) (0, false, 0)

/-- `evaluatePosition(testBoard, testPiece, testPosition)`: place the piece
(marker `1`), then score
`-0.51·aggregateHeight + 0.76·completeLines - 0.36·holes - 0.18·bumpiness`.
The JS weights are IEEE doubles; they are modelled as the exact rationals
they denote in the source text. -/
def evaluatePosition (testBoard : Board) (testPiece : Shape) (testPosition : Pos) : ℚ :=
  let simBoard := placePiece testBoard testPiece testPosition 1
  let stats := (List.range COLS).map (fun c => colStats simBoard c)
  let columnHeights := stats.map (fun s => s.1)
  let aggregateHeight := columnHeights.foldl (· + ·) (0 : Nat)
  let holes := (stats.map (fun s => s.2.2)).foldl (· + ·) (0 : Nat)
  let bumpiness := ((List.range (COLS - 1)).map (fun i =>
      ((columnHeights.getD i 0 : Int) - (columnHeights.getD (i+1) 0 : Int)).natAbs)).foldl
      (· + ·) (0 : Nat)
  let completeLines :=
    ((List.range TOTAL_ROWS).filter (fun row => isFull (simBoard.getD row []))).length
  0 - (aggregateHeight : ℚ) * (51/100) + (completeLines : ℚ) * (76/100)
    - (holes : ℚ) * (36/100) - (bumpiness : ℚ) * (18/100)

/-- A placement enumerated by `findBestMove`: the number of clockwise
rotations applied, the anchor column, the rotated shape, and the resting row
found by the drop loop. -/
structure Candidate where
  rotation : Nat
  column : Int
  shape : Shape
  finalRow : Int
deriving DecidableEq

/-- The rotation counts `findBestMove` enumerates: only `0` for the O piece
(`if (currentPiece.type === 'O' && rot > 0) break`), else `0..3`. -/
def rotationRange (t : PieceType) : List Nat := if t = .O then [0] else [0, 1, 2, 3]

/-- The enumeration of `findBestMove`: rotations ascending, then anchor
columns `-2..COLS+1` ascending, skipping columns where the undropped position
collides, dropping each remaining candidate to its resting row. -/
def candidateList (board : Board) (t : PieceType) (shape : Shape) (startRow : Int) :
    List Candidate :=
  (rotationRange t).flatMap fun rot =>
    let rotatedShape := rotateMatrix^[rot] shape
    (List.range (COLS + 4)).filterMap fun k =>
      let col : Int := (k : Int) - 2
      if checkCollision board rotatedShape ⟨startRow, col⟩ then none
      else some ⟨rot, col, rotatedShape, dropRowAux board rotatedShape col 256 startRow⟩

/-- The heuristic score `findBestMove` assigns to a candidate:
`evaluatePosition(board, rotatedShape, finalPos)`. -/
def candScore (board : Board) (c : Candidate) : ℚ :=
  evaluatePosition board c.shape ⟨c.finalRow, c.column⟩

/-- The accumulator loop of `findBestMove`: `bestScore` starts at `-Infinity`
(modelled as `none`) and a candidate replaces the incumbent exactly when its
score is strictly greater (`score > bestScore`). -/
def selectBest (f : α → ℚ) : Option (α × ℚ) → List α → Option (α × ℚ)
  | acc, [] => acc
  | acc, x :: xs =>
      selectBest f
        (match acc with
         | none => some (x, f x)
         | some (b, bs) => if bs < f x then some (x, f x) else some (b, bs)) xs

/-- `findBestMove()` from src/src/main.jsx: fold the strict-improvement
accumulator over the enumerated placements. -/
def findBestMove (board : Board) (t : PieceType) (shape : Shape) (startRow : Int) :
    Option Candidate :=
  (selectBest (candScore board) none (candidateList board t shape startRow)).map Prod.fst

/-- The strict-improvement fold keeps the earliest candidate of maximal
score: everything before it scores strictly less, everything after at most
as much. -/
lemma selectBest_spec (f : α → ℚ) :
    ∀ (xs : List α) (b : α),
      ∃ c l₁ l₂, b :: xs = l₁ ++ c :: l₂ ∧
        selectBest f (some (b, f b)) xs = some (c, f c) ∧
        (∀ a ∈ l₁, f a < f c) ∧ (∀ a ∈ l₂, f a ≤ f c) := by
  intro xs
  induction xs with
  | nil =>
    intro b
    exact ⟨b, [], [], rfl, rfl, by simp, by simp⟩
  | cons x xs ih =>
    intro b
    by_cases hbx : f b < f x
    · have hstep : selectBest f (some (b, f b)) (x :: xs)
          = selectBest f (some (x, f x)) xs := by
        simp [selectBest, hbx]
      obtain ⟨c, l₁, l₂, hsplit, hres, hl₁, hl₂⟩ := ih x
      have hx_mem : x ∈ l₁ ++ c :: l₂ := by
        rw [← hsplit]; exact List.mem_cons_self x xs
      have hxc : f x ≤ f c := by
        rcases List.mem_append.mp hx_mem with hm | hm
        · exact le_of_lt (hl₁ x hm)
        · rcases List.mem_cons.mp hm with rfl | hm
          · exact le_refl _
          · exact hl₂ x hm
      refine ⟨c, b :: l₁, l₂, by simp [hsplit], hstep.trans hres, ?_, hl₂⟩
      intro a ha
      rcases List.mem_cons.mp ha with rfl | ha
      · exact lt_of_lt_of_le hbx hxc
      · exact hl₁ a ha
    · have hxb : f x ≤ f b := le_of_not_lt hbx
      have hstep : selectBest f (some (b, f b)) (x :: xs)
          = selectBest f (some (b, f b)) xs := by
        simp [selectBest, hbx]
      obtain ⟨c, l₁, l₂, hsplit, hres, hl₁, hl₂⟩ := ih b
      cases l₁ with
      | nil =>
        rw [List.nil_append] at hsplit
        injection hsplit with hcb hl₂xs
        refine ⟨c, [], x :: l₂, by rw [List.nil_append, hcb, hl₂xs],
          hstep.trans hres, by simp, ?_⟩
        intro a ha
        rcases List.mem_cons.mp ha with rfl | ha
        · exact hcb ▸ hxb
        · exact hl₂ a ha
      | cons z l₁' =>
        rw [List.cons_append] at hsplit
        injection hsplit with hz hxs
        have hbc : f b < f c := by
          rw [hz]; exact hl₁ z (List.mem_cons_self z l₁')
        refine ⟨c, b :: x :: l₁', l₂, ?_, hstep.trans hres, ?_, hl₂⟩
        · rw [List.cons_append, List.cons_append, ← hxs]
        · intro a ha
          rcases List.mem_cons.mp ha with rfl | ha
          · exact hbc
          · rcases List.mem_cons.mp ha with rfl | ha
            · exact lt_of_le_of_lt hxb hbc
            · exact hl₁ a (List.mem_cons_of_mem z ha)

/-- C9: whenever the enumeration is nonempty, `findBestMove` returns the
enumerated placement whose heuristic score is strictly highest, ties resolved
in favor of the earliest-enumerated candidate (every earlier candidate scores
strictly less, every later one at most as much); the fold only reads the
board and the piece, mutating neither. -/
theorem find_best_move_argmax (board : Board) (t : PieceType) (shape : Shape)
    (startRow : Int) (h : candidateList board t shape startRow ≠ []) :
    ∃ c l₁ l₂, candidateList board t shape startRow = l₁ ++ c :: l₂ ∧
      findBestMove board t shape startRow = some c ∧
      (∀ c' ∈ l₁, candScore board c' < candScore board c) ∧
      (∀ c' ∈ l₂, candScore board c' ≤ candScore board c) := by
  obtain ⟨x, xs, hx⟩ := List.exists_cons_of_ne_nil h
  obtain ⟨c, l₁, l₂, hsplit, hres, hl₁, hl₂⟩ := selectBest_spec (candScore board) xs x
  refine ⟨c, l₁, l₂, by rw [hx]; exact hsplit, ?_, hl₁, hl₂⟩
  have h1 : selectBest (candScore board) none (candidateList board t shape startRow)
      = selectBest (candScore board) (some (x, candScore board x)) xs := by
    rw [hx]
    rfl
  rw [findBestMove, h1, hres]
  rfl

set_option maxRecDepth 100000 in
/-- Witness for C9: the O piece over the empty board has a nonempty
enumeration, so `findBestMove` picks its first-wins argmax. -/
theorem find_best_move_argmax_witness :
    candidateList createEmptyBoard .O (tetrominoShape .O) 19 ≠ [] ∧
      (∃ c l₁ l₂, candidateList createEmptyBoard .O (tetrominoShape .O) 19 = l₁ ++ c :: l₂ ∧
        findBestMove createEmptyBoard .O (tetrominoShape .O) 19 = some c ∧
        (∀ c' ∈ l₁, candScore createEmptyBoard c' < candScore createEmptyBoard c) ∧
        (∀ c' ∈ l₂, candScore createEmptyBoard c' ≤ candScore createEmptyBoard c)) :=
  ⟨by decide, find_best_move_argmax createEmptyBoard .O (tetrominoShape .O) 19 (by decide)⟩
